import Mathlib

/-!
Verification of the polybot trading-engine core against its specification.

Python floats are modelled as rationals (`ℚ`); exceptions are modelled with
`Except Unit` or an explicit "raised" flag; `dict` state is modelled by
functions into `Option` (or association lists where values must be summed).
Each definition mirrors one Python function of the repository; the LimitStore
reservation engine, whose implementation is absent from the sources (only the
`ILimitStore` protocol and a test mock exist), is modelled from the spec and
marked as such.
-/

namespace Polybot

/-- The `Side` enum from `polybot/common/enums.py`. -/
inductive Side
  | BUY
  | SELL
deriving DecidableEq, Repr

/-- The `OrderStatus` enum from `polybot/common/enums.py`. -/
inductive OrderStatus
  | INFLIGHT
  | ACTIVE
  | INFLIGHT_CANCELLED
  | CANCELLED
  | FILLED
  | EXPIRED
deriving DecidableEq, Repr

/-- The `OrderType` enum from `polybot/common/enums.py`. -/
inductive OrderType
  | LIMIT
  | MARKET
deriving DecidableEq, Repr

/-- `Level` from `polybot/common/orderbook.py`: one (price, volume) entry. -/
structure Level where
  price : ℚ
  volume : ℚ
deriving DecidableEq, Repr

/-- `OrderBook` from `polybot/common/orderbook.py`: bids descending,
asks ascending (intended; enforced only by the mutators). -/
structure OrderBook where
  bids : List Level
  asks : List Level
deriving DecidableEq, Repr

/-- The levels `impact_price` (and the side-dependent loops) walk:
asks for a BUY, bids for a SELL. -/
def OrderBook.sideLevels (b : OrderBook) : Side → List Level
  | Side.BUY => b.asks
  | Side.SELL => b.bids

/-- Total volume of a list of levels (`sum(lvl.volume for lvl in levels)`). -/
def sideVolume (ls : List Level) : ℚ :=
  (ls.map Level.volume).sum

/-- `OrderBook.populate`: bulk replace; bids sorted descending
(`sorted(..., reverse=True)`), asks ascending (`sorted(...)`). Python's sort
is stable; `List.mergeSort` models it. -/
def OrderBook.populate (b : OrderBook) (bids asks : List (ℚ × ℚ)) : OrderBook :=
  { b with
    bids := (bids.map fun pv => Level.mk pv.1 pv.2).mergeSort fun x y => y.price ≤ x.price
    asks := (asks.map fun pv => Level.mk pv.1 pv.2).mergeSort fun x y => x.price ≤ y.price }

/-- The first loop of `OrderBook.update_level`: find the first level with this
price; volume 0 removes it, otherwise its volume is overwritten. `none` when
no level has the price (the loop falls through). -/
def updateExisting (price volume : ℚ) : List Level → Option (List Level)
  | [] => none
  | l :: ls =>
    if l.price = price then
      some (if volume = 0 then ls else { l with volume := volume } :: ls)
    else
      (updateExisting price volume ls).map (l :: ·)

/-- The bid-side insertion loop of `update_level`: insert before the first
strictly smaller price, else append. -/
def insertBid (nl : Level) : List Level → List Level
  | [] => [nl]
  | l :: ls => if nl.price > l.price then nl :: l :: ls else l :: insertBid nl ls

/-- The ask-side insertion loop of `update_level`: insert before the first
strictly larger price, else append. -/
def insertAsk (nl : Level) : List Level → List Level
  | [] => [nl]
  | l :: ls => if nl.price < l.price then nl :: l :: ls else l :: insertAsk nl ls

/-- `OrderBook.update_level`: upsert a single level; an existing level is
overwritten (removed when `volume == 0`), a new level is inserted in sorted
position only when `volume > 0`. -/
def OrderBook.update_level (b : OrderBook) (price volume : ℚ) (side : Side) : OrderBook :=
  match side with
  | Side.BUY =>
    match updateExisting price volume b.bids with
    | some bs => { b with bids := bs }
    | none => if volume > 0 then { b with bids := insertBid ⟨price, volume⟩ b.bids } else b
  | Side.SELL =>
    match updateExisting price volume b.asks with
    | some ks => { b with asks := ks }
    | none => if volume > 0 then { b with asks := insertAsk ⟨price, volume⟩ b.asks } else b

/-- The loop of `OrderBook.adjust_volume`: find the first level with this
price and add the delta; a resulting volume `≤ 0` removes the level.
`none` when the price is untracked. -/
def adjustExisting (price delta : ℚ) : List Level → Option (List Level)
  | [] => none
  | l :: ls =>
    if l.price = price then
      some (if l.volume + delta ≤ 0 then ls else { l with volume := l.volume + delta } :: ls)
    else
      (adjustExisting price delta ls).map (l :: ·)

/-- `OrderBook.adjust_volume`: returns the new book and whether the level was
found (`False` is a tolerated no-op, not an error). -/
def OrderBook.adjust_volume (b : OrderBook) (price delta : ℚ) (side : Side) :
    OrderBook × Bool :=
  match side with
  | Side.BUY =>
    match adjustExisting price delta b.bids with
    | some bs => ({ b with bids := bs }, true)
    | none => (b, false)
  | Side.SELL =>
    match adjustExisting price delta b.asks with
    | some ks => ({ b with asks := ks }, true)
    | none => (b, false)

/-- The accumulation loop of `OrderBook.impact_price`, threading
`(remaining, weighted_sum)`; it breaks as soon as `remaining <= 0`. -/
def impactLoop : List Level → ℚ → ℚ → ℚ × ℚ
  | [], r, w => (r, w)
  | l :: ls, r, w =>
    if r ≤ 0 then (r, w)
    else impactLoop ls (r - min r l.volume) (w + min r l.volume * l.price)

/-- `OrderBook.impact_price`: `ok none` models Python's `None` (insufficient
liquidity); `error ()` models the `ZeroDivisionError` the final
`weighted_sum / volume` raises when `volume == 0`. -/
def OrderBook.impact_price (b : OrderBook) (volume : ℚ) (side : Side) :
    Except Unit (Option ℚ) :=
  let rw := impactLoop (b.sideLevels side) volume 0
  if rw.1 > 0 then Except.ok none
  else if volume = 0 then Except.error ()
  else Except.ok (some (rw.2 / volume))

/-! ### DeltaCache (`polybot/polymarket/polymarket_iml.py`)

The nested `dict[str, dict[Side, dict[Decimal, Decimal]]]` is modelled as a
function into `Option`: `none` is an absent price entry. `get_last_size`'s
lazy initialisation of empty inner maps has no observable effect and is the
identity here. -/

/-- The cache state of `DeltaCache`. -/
def DeltaCache : Type := String → Side → ℚ → Option ℚ

/-- The empty cache (`DeltaCache.__init__`). -/
def DeltaCache.empty : DeltaCache := fun _ _ _ => none

/-- `DeltaCache.get_last_size`: last known size, 0 when never seen or
previously cleared. -/
def DeltaCache.get_last_size (c : DeltaCache) (i : String) (s : Side) (p : ℚ) : ℚ :=
  (c i s p).getD 0

/-- `DeltaCache.update_size`: store the new size; a size `≤ 0` pops the
entry. -/
def DeltaCache.update_size (c : DeltaCache) (i : String) (s : Side) (p ns : ℚ) :
    DeltaCache :=
  fun i' s' p' =>
    if i' = i ∧ s' = s ∧ p' = p then
      if ns ≤ 0 then none else some ns
    else c i' s' p'

/-- `DeltaCache.get_delta`: returns `new_size - old_size` and the updated
cache (the Python method mutates `self`). -/
def DeltaCache.get_delta (c : DeltaCache) (i : String) (s : Side) (p ns : ℚ) :
    ℚ × DeltaCache :=
  (ns - c.get_last_size i s p, c.update_size i s p ns)

/-! ### Order and OrderManager (`polybot/common/types.py`,
`polybot/state/order_manager.py`)

`ORDER_ID` is an `int`; the two dicts of `OrderManager` are modelled as
functions into `Option`. Timestamps (`time.time()`) are an external input and
are passed as an explicit `now` argument. -/

/-- `Order` from `polybot/common/types.py`. -/
structure Order where
  instrument_id : String
  order_id : ℤ
  side : Side
  order_type : OrderType
  price : ℚ
  quantity : ℚ
  status : OrderStatus
  filled_quantity : ℚ
  created_at : ℚ
  updated_at : ℚ
  exchange_order_id : String
deriving DecidableEq, Repr

/-- The state of `OrderManager`: `orders` and `exchange_order_ids` dicts. -/
structure OrderManager where
  orders : ℤ → Option Order
  exchange_order_ids : String → Option ℤ

/-- A fresh `OrderManager` (empty dicts). -/
def OrderManager.empty : OrderManager :=
  ⟨fun _ => none, fun _ => none⟩

/-- `OrderManager.get_order_id_from_exchange_order_id`: implemented with
`dict.get`, which returns `None` rather than raising; the `Except` layer
records that no exception can escape (`ok`). -/
def OrderManager.get_order_id_from_exchange_order_id (m : OrderManager)
    (e : String) : Except Unit (Option ℤ) :=
  Except.ok (m.exchange_order_ids e)

/-- `OrderManager.get_exchange_order_id_from_order_id`: indexes
`self.orders[order_id]`, so an unknown order id raises `KeyError`
(`Except.error ()`). -/
def OrderManager.get_exchange_order_id_from_order_id (m : OrderManager)
    (oid : ℤ) : Except Unit String :=
  match m.orders oid with
  | none => Except.error ()
  | some o => Except.ok o.exchange_order_id

/-- `OrderManager.add_fill_quantity`: accumulates `filled_quantity` and marks
the order `FILLED` exactly when the accumulated quantity equals the requested
quantity. An unknown order id raises `KeyError`. -/
def OrderManager.add_fill_quantity (m : OrderManager) (oid : ℤ) (fq now : ℚ) :
    Except Unit OrderManager :=
  match m.orders oid with
  | none => Except.error ()
  | some o =>
    let f := o.filled_quantity + fq
    Except.ok
      { m with
        orders := fun oid' =>
          if oid' = oid then
            some { o with
                   filled_quantity := f
                   updated_at := now
                   status := if f = o.quantity then OrderStatus.FILLED else o.status }
          else m.orders oid' }

/-! ### PositionManager (`polybot/state/position_manager.py`)

`positions` is a `defaultdict(dict)` keyed by instrument, the inner dict keyed
by exact price. Both are modelled as insertion-ordered association lists so
the value sums are expressible. -/

/-- `Position` from `polybot/state/position_manager.py`. -/
structure Position where
  iid : String
  volume : ℚ
  price : ℚ
deriving DecidableEq, Repr

/-- `Position.get_nominal_value`. -/
def Position.get_nominal_value (p : Position) : ℚ :=
  p.volume * p.price

/-- The state of `PositionManager`: instrument → (price → Position). -/
structure PositionManager where
  positions : List (String × List (ℚ × Position))

/-- A fresh `PositionManager`. -/
def PositionManager.empty : PositionManager := ⟨[]⟩

/-- The `defaultdict` read `self.positions[iid]`: the stored inner dict, or
empty when the instrument has no entry. -/
def lookupBuckets (ps : List (String × List (ℚ × Position))) (iid : String) :
    List (ℚ × Position) :=
  match ps.find? fun kv => kv.1 = iid with
  | some kv => kv.2
  | none => []

/-- In-place update of the bucket at an exact price
(`self.positions[iid][price].volume += volume`); `none` when the price has no
bucket yet. -/
def updateBucket (price volume : ℚ) : List (ℚ × Position) → Option (List (ℚ × Position))
  | [] => none
  | kv :: rest =>
    if kv.1 = price then
      some ((kv.1, { kv.2 with volume := kv.2.volume + volume }) :: rest)
    else
      (updateBucket price volume rest).map (kv :: ·)

/-- Write-through on the outer `defaultdict`: apply `f` to the instrument's
inner dict, materialising an empty one first when absent. -/
def updateInstr (ps : List (String × List (ℚ × Position))) (iid : String)
    (f : List (ℚ × Position) → List (ℚ × Position)) :
    List (String × List (ℚ × Position)) :=
  match ps with
  | [] => [(iid, f [])]
  | kv :: rest =>
    if kv.1 = iid then (kv.1, f kv.2) :: rest
    else kv :: updateInstr rest iid f

/-- `PositionManager.add_position`: aggregate into the bucket keyed by exact
price, creating it (at insertion order) when absent. -/
def PositionManager.add_position (m : PositionManager) (iid : String)
    (volume price : ℚ) : PositionManager :=
  ⟨updateInstr m.positions iid fun buckets =>
    match updateBucket price volume buckets with
    | some b' => b'
    | none => buckets ++ [(price, Position.mk iid volume price)]⟩

/-- `PositionManager.get_total_volume`: sum of bucket volumes; total (the
`defaultdict` never raises). -/
def PositionManager.get_total_volume (m : PositionManager) (iid : String) : ℚ :=
  ((lookupBuckets m.positions iid).map fun kv => kv.2.volume).sum

/-- `PositionManager.get_total_nominal_value`: sum of `volume*price` per
bucket; total (the `defaultdict` never raises). -/
def PositionManager.get_total_nominal_value (m : PositionManager) (iid : String) : ℚ :=
  ((lookupBuckets m.positions iid).map fun kv => kv.2.get_nominal_value).sum

/-- Replay a list of `add_position` calls `(iid, volume, price)` from the
fresh manager. -/
def runPositionCalls (calls : List (String × ℚ × ℚ)) : PositionManager :=
  calls.foldl (fun m c => m.add_position c.1 c.2.1 c.2.2) PositionManager.empty

/-! ### Channel (`polybot/channel/channel.py`)

The Channel's own state is its status, the instrument registry
(`InstrumentWrapper`: id and `is_tradable`), the per-instrument order books
(`OrderBookManager`'s dict) and the strategy router's registrations. Calls to
external collaborators — the market-data provider's `subscribe`, strategy
callbacks and `eml.send_order` — cross the component boundary (spec §1/§6)
and have no effect on this state; the dispatch loops are therefore not part
of the model. A strategy is represented by its declared instrument list. The
`Bool` returned by the fallible operations records whether the Python call
raised (`_throw_channel_error` sets `status = ERROR` *before* raising; the
handlers' `get_orderbook` raises `KeyError` on an unknown instrument). -/

/-- The `ChannelStatus` enum. -/
inductive ChannelStatus
  | INITIALIZED
  | RUNNING
  | ERROR
  | STOPPED
deriving DecidableEq, Repr

/-- The mutable state a `Channel` owns. -/
structure ChannelState where
  status : ChannelStatus
  instruments : List (String × Bool)
  books : List (String × OrderBook)
  strategies : List (List String)
deriving DecidableEq, Repr

/-- A freshly constructed Channel (`Channel.__init__`). -/
def ChannelState.init : ChannelState :=
  ⟨ChannelStatus.INITIALIZED, [], [], []⟩

/-- `OrderBookManager.get_orderbook` (raises `KeyError` when absent, hence
`Option` here, turned into the raised flag by the callers). -/
def lookupBook (bs : List (String × OrderBook)) (iid : String) : Option OrderBook :=
  (bs.find? fun kv => kv.1 = iid).map Prod.snd

/-- Replace the book stored for an instrument. -/
def storeBook (bs : List (String × OrderBook)) (iid : String) (ob : OrderBook) :
    List (String × OrderBook) :=
  bs.map fun kv => if kv.1 = iid then (kv.1, ob) else kv

/-- `Channel._add_new_instrument` on the INITIALIZED path: create the order
book, subscribe upstream (external), track the instrument as not tradable. -/
def addNewInstrument (c : ChannelState) (iid : String) : ChannelState :=
  { c with
    books := c.books ++ [(iid, OrderBook.mk [] [])]
    instruments := c.instruments ++ [(iid, false)] }

/-- `Channel.run`: sets `status = RUNNING`, unconditionally. -/
def ChannelState.run (c : ChannelState) : ChannelState :=
  { c with status := ChannelStatus.RUNNING }

/-- `Channel.stop`: sets `status = STOPPED`, unconditionally. -/
def ChannelState.stop (c : ChannelState) : ChannelState :=
  { c with status := ChannelStatus.STOPPED }

/-- `Channel.add_strategy`: outside INITIALIZED, `_throw_channel_error` sets
`status = ERROR` and raises `ChannelStateError` (flag `true`). Otherwise every
not-yet-known declared instrument is registered and the strategy is appended
to the router (view wiring reads, but does not change, this state). -/
def ChannelState.add_strategy (c : ChannelState) (strat : List String) :
    ChannelState × Bool :=
  if c.status ≠ ChannelStatus.INITIALIZED then
    ({ c with status := ChannelStatus.ERROR }, true)
  else
    let c' := strat.foldl
      (fun acc iid =>
        if (acc.instruments.map Prod.fst).contains iid then acc
        else addNewInstrument acc iid)
      c
    ({ c' with strategies := c'.strategies ++ [strat] }, false)

/-- `Channel.on_order_book_update_event`: apply each delta
`(price, size_delta, side)` via `adjust_volume`; an unknown instrument makes
`get_orderbook` raise `KeyError` (flag `true`, state untouched). -/
def ChannelState.on_order_book_update_event (c : ChannelState) (iid : String)
    (deltas : List (ℚ × ℚ × Side)) : ChannelState × Bool :=
  match lookupBook c.books iid with
  | none => (c, true)
  | some ob =>
    let ob' := deltas.foldl (fun b d => (b.adjust_volume d.1 d.2.1 d.2.2).1) ob
    ({ c with books := storeBook c.books iid ob' }, false)

/-- `Channel.on_order_book_snapshot_event`: repopulate the book wholesale and
flip the instrument tradable; an unknown instrument raises `KeyError`. -/
def ChannelState.on_order_book_snapshot_event (c : ChannelState) (iid : String)
    (bids asks : List (ℚ × ℚ)) : ChannelState × Bool :=
  match lookupBook c.books iid with
  | none => (c, true)
  | some ob =>
    ({ c with
       books := storeBook c.books iid (ob.populate bids asks)
       instruments := c.instruments.map fun kv =>
         if kv.1 = iid then (kv.1, true) else kv }, false)

/-- `Channel.on_trade_event`: reads the book (an unknown instrument raises
`KeyError`) and dispatches to strategies; no Channel state changes. -/
def ChannelState.on_trade_event (c : ChannelState) (iid : String) : ChannelState × Bool :=
  match lookupBook c.books iid with
  | none => (c, true)
  | some _ => (c, false)

/-- One public operation on a Channel. -/
inductive ChannelOp
  | addStrategy (strat : List String)
  | run
  | stop
  | snapshot (iid : String) (bids asks : List (ℚ × ℚ))
  | update (iid : String) (deltas : List (ℚ × ℚ × Side))
  | trade (iid : String)
deriving DecidableEq

/-- The state after one operation (the raised flag dropped). -/
def applyChannelOp (c : ChannelState) : ChannelOp → ChannelState
  | ChannelOp.addStrategy strat => (c.add_strategy strat).1
  | ChannelOp.run => c.run
  | ChannelOp.stop => c.stop
  | ChannelOp.snapshot iid bids asks => (c.on_order_book_snapshot_event iid bids asks).1
  | ChannelOp.update iid deltas => (c.on_order_book_update_event iid deltas).1
  | ChannelOp.trade iid => (c.on_trade_event iid).1

/-- Whether the operation is one of `run`/`stop`, which overwrite the status
unconditionally. -/
def ChannelOp.overwritesStatus : ChannelOp → Bool
  | ChannelOp.run => true
  | ChannelOp.stop => true
  | _ => false

/-- Replay a sequence of operations. -/
def runChannelOps (c : ChannelState) (ops : List ChannelOp) : ChannelState :=
  ops.foldl applyChannelOp c

/-! ### LimitStore (risk engine)

The repository declares the reservation engine only as the `ILimitStore`
protocol (`polybot/limits/limit_store.py`); the concrete `LimitStore` class
in the sources holds just the `limits` dict. The reservation state and the
three operations below are therefore modelled from the spec (§4.5). -/

/-- `Limit` from `polybot/limits/limit.py`. -/
structure Limit where
  instrument_id : String
  max_position_size : ℚ
  max_nominal_position_size : ℚ
deriving DecidableEq, Repr

/-- `LimitCheckResult` from `polybot/limits/limit.py`. -/
structure LimitCheckResult where
  allowed : Bool
  reason : String
deriving DecidableEq, Repr

/-- Modelled from the spec: per instrument and side, the reserved (in-flight)
and realized exposure the LimitStore tracks, both as volume and as nominal
value (spec §4.5, glossary). -/
structure Exposure where
  reservedVolume : ℚ
  reservedNominal : ℚ
  realizedVolume : ℚ
  realizedNominal : ℚ
deriving DecidableEq, Repr

/-- Modelled from the spec: the state of the LimitStore risk engine — the
`limits` dict of the source plus the per-instrument/side exposure of spec
§4.5 whose implementation is absent from the sources. -/
structure LimitStoreState where
  limits : String → Option Limit
  exposures : String → Side → Exposure

/-- Modelled from the spec: a fresh LimitStore — no limits, zero exposure. -/
def LimitStoreState.init : LimitStoreState :=
  ⟨fun _ => none, fun _ _ => ⟨0, 0, 0, 0⟩⟩

/-- `LimitStore.set_limit`: last write wins. -/
def LimitStoreState.set_limit (s : LimitStoreState) (i : String) (lim : Limit) :
    LimitStoreState :=
  { s with limits := fun i' => if i' = i then some lim else s.limits i' }

/-- Modelled from the spec: `try_reserve_capacity` — atomic check-and-commit:
evaluate reserved+realized exposure against the instrument's limits for the
relevant side and, on admission, immediately increase the reserved exposure
(spec §4.5). With no limit registered the check fails closed (spec §2,
"fail-closed admission control"). Rejection is a normal outcome
(`LimitCheckResult`), not an exception. -/
def LimitStoreState.try_reserve_capacity (s : LimitStoreState) (i : String)
    (sd : Side) (volume price : ℚ) : LimitCheckResult × LimitStoreState :=
  match s.limits i with
  | none => (⟨false, "no limit registered"⟩, s)
  | some lim =>
    let e := s.exposures i sd
    if e.reservedVolume + e.realizedVolume + volume ≤ lim.max_position_size ∧
        e.reservedNominal + e.realizedNominal + volume * price ≤
          lim.max_nominal_position_size then
      (⟨true, ""⟩,
        { s with
          exposures := fun i' sd' =>
            if i' = i ∧ sd' = sd then
              { e with
                reservedVolume := e.reservedVolume + volume
                reservedNominal := e.reservedNominal + volume * price }
            else s.exposures i' sd' })
    else
      (⟨false, "limit exceeded"⟩, s)

/-- Modelled from the spec: `release_reserved_capacity` — rollback for a
reserved order that failed to send or was cancelled pre-fill; restores
exactly the amount the identical-argument reservation added (spec §4.5). -/
def LimitStoreState.release_reserved_capacity (s : LimitStoreState) (i : String)
    (sd : Side) (volume price : ℚ) : LimitStoreState :=
  { s with
    exposures := fun i' sd' =>
      if i' = i ∧ sd' = sd then
        { s.exposures i sd with
          reservedVolume := (s.exposures i sd).reservedVolume - volume
          reservedNominal := (s.exposures i sd).reservedNominal - volume * price }
      else s.exposures i' sd' }

/-- Modelled from the spec: `apply_fill` — converts reserved into realized
exposure, the realized side recomputed from the actual fill values, the
reserved side relieved of the original reservation (spec §4.5). -/
def LimitStoreState.apply_fill (s : LimitStoreState) (i : String) (sd : Side)
    (reserved_price reserved_volume fill_price fill_volume : ℚ) : LimitStoreState :=
  { s with
    exposures := fun i' sd' =>
      if i' = i ∧ sd' = sd then
        { s.exposures i sd with
          reservedVolume := (s.exposures i sd).reservedVolume - reserved_volume
          reservedNominal :=
            (s.exposures i sd).reservedNominal - reserved_volume * reserved_price
          realizedVolume := (s.exposures i sd).realizedVolume + fill_volume
          realizedNominal :=
            (s.exposures i sd).realizedNominal + fill_volume * fill_price }
      else s.exposures i' sd' }

/-! ### Book invariant and operation sequences (spec §3, §8) -/

/-- Every persisted level has strictly positive volume. -/
def posVolumes (ls : List Level) : Prop :=
  ∀ l ∈ ls, 0 < l.volume

/-- Prices strictly descending (the bid side). -/
def strictDesc (ls : List Level) : Prop :=
  ls.Pairwise fun a b => b.price < a.price

/-- Prices strictly ascending (the ask side). -/
def strictAsc (ls : List Level) : Prop :=
  ls.Pairwise fun a b => a.price < b.price

/-- Each price occurs at most once in the list. -/
def uniquePrices (ls : List Level) : Prop :=
  ls.Pairwise fun a b => a.price ≠ b.price

/-- The order-book invariant of spec §3/§8: bids strictly descending, asks
strictly ascending, prices unique per side, no level with volume ≤ 0. -/
def bookInvariant (b : OrderBook) : Prop :=
  strictDesc b.bids ∧ strictAsc b.asks ∧
  uniquePrices b.bids ∧ uniquePrices b.asks ∧
  posVolumes b.bids ∧ posVolumes b.asks

/-- One mutation of an order book after `populate`. -/
inductive BookOp
  | update (price volume : ℚ) (side : Side)
  | adjust (price delta : ℚ) (side : Side)
deriving DecidableEq

/-- Apply one mutation (`adjust_volume`'s found-flag dropped). -/
def applyBookOp (b : OrderBook) : BookOp → OrderBook
  | BookOp.update p v s => b.update_level p v s
  | BookOp.adjust p d s => (b.adjust_volume p d s).1

/-- Replay a sequence of mutations. -/
def runBookOps (b : OrderBook) (ops : List BookOp) : OrderBook :=
  ops.foldl applyBookOp b

/-- An `update_level` call with non-negative volume (`adjust_volume` is
unrestricted). -/
def goodBookOp : BookOp → Prop
  | BookOp.update _ v _ => 0 ≤ v
  | BookOp.adjust _ _ _ => True

/-- The volume the greedy walk of `impact_price` consumes from the levels,
taking `min remaining volume` at each level until nothing remains. -/
def consumedVolume (r : ℚ) : List Level → ℚ
  | [] => 0
  | l :: ls =>
    if r ≤ 0 then 0
    else min r l.volume + consumedVolume (r - min r l.volume) ls

/-- The notional (price-weighted volume) the greedy walk of `impact_price`
accumulates from the best level inward. -/
def consumedNotional (r : ℚ) : List Level → ℚ
  | [] => 0
  | l :: ls =>
    if r ≤ 0 then 0
    else min r l.volume * l.price + consumedNotional (r - min r l.volume) ls

/-! ### Concrete sample states for evaluation -/

/-- A sample resting order: quantity 10, none filled, ACTIVE. -/
def sampleOrder : Order :=
  ⟨"A", 1, Side.BUY, OrderType.LIMIT, 1/2, 10, OrderStatus.ACTIVE, 0, 0, 0, "X1"⟩

/-- An `OrderManager` holding `sampleOrder` under order id 1. -/
def sampleManager : OrderManager :=
  ⟨fun oid => if oid = 1 then some sampleOrder else none, fun _ => none⟩

/-- A `LimitStore` with a single generous limit for instrument `"A"`. -/
def sampleLimitStore : LimitStoreState :=
  LimitStoreState.init.set_limit "A" ⟨"A", 100, 100⟩

/-- A Channel that has entered ERROR: `add_strategy` called after `run()`. -/
def sampleErrorChannel : ChannelState :=
  (ChannelState.init.run.add_strategy ["A"]).1

/-! ## Theorems -/

/-- C7: `get_delta(i, s, p, n)` returns `n` minus the last stored size for
that key (0 when never seen or evicted) and stores `n` (evicting when
`n ≤ 0`), so a second identical call with `n > 0` returns 0 and
`get_last_size` afterwards returns `n`. -/
theorem deltaCache_get_delta_spec (c : DeltaCache) (i : String) (s : Side)
    (p n m : ℚ) (hn : 0 < n) (hm : m ≤ 0) :
    (c.get_delta i s p n).1 = n - c.get_last_size i s p
    ∧ ((c.get_delta i s p n).2.get_delta i s p n).1 = 0
    ∧ (c.get_delta i s p n).2.get_last_size i s p = n
    ∧ (c.update_size i s p m).get_last_size i s p = 0 := by
  have hns : ¬n ≤ 0 := not_le.mpr hn
  refine ⟨rfl, ?_, ?_, ?_⟩
  · simp [DeltaCache.get_delta, DeltaCache.update_size, DeltaCache.get_last_size, hns]
  · simp [DeltaCache.get_delta, DeltaCache.update_size, DeltaCache.get_last_size, hns]
  · simp [DeltaCache.update_size, DeltaCache.get_last_size, hm]

/-- Witness for C7 at the spec's scenario: after `update_size("A",BUY,0.50,100)`,
`get_delta("A",BUY,0.50,300)` returns `300 − 100 = 200` and `get_last_size`
afterwards returns 300. -/
theorem deltaCache_get_delta_spec_witness :
    ((0:ℚ) < 300 ∧ (0:ℚ) ≤ 0)
    ∧ (300:ℚ) -
        (DeltaCache.empty.update_size "A" Side.BUY (1/2) 100).get_last_size "A" Side.BUY (1/2)
      = 200
    ∧ (((DeltaCache.empty.update_size "A" Side.BUY (1/2) 100).get_delta "A" Side.BUY (1/2) 300).1
        = 300 - (DeltaCache.empty.update_size "A" Side.BUY (1/2) 100).get_last_size "A" Side.BUY (1/2)
      ∧ (((DeltaCache.empty.update_size "A" Side.BUY (1/2) 100).get_delta "A" Side.BUY (1/2) 300).2.get_delta
            "A" Side.BUY (1/2) 300).1 = 0
      ∧ ((DeltaCache.empty.update_size "A" Side.BUY (1/2) 100).get_delta "A" Side.BUY (1/2) 300).2.get_last_size
            "A" Side.BUY (1/2) = 300
      ∧ ((DeltaCache.empty.update_size "A" Side.BUY (1/2) 100).update_size "A" Side.BUY (1/2) 0).get_last_size
            "A" Side.BUY (1/2) = 0) :=
  ⟨⟨by norm_num, le_refl 0⟩,
   by norm_num [DeltaCache.empty, DeltaCache.update_size, DeltaCache.get_last_size],
   deltaCache_get_delta_spec _ "A" Side.BUY (1/2) 300 0 (by norm_num) (le_refl 0)⟩

/-- C9 counterexample: on the empty `OrderManager`, querying the
exchange→order mapping with the unknown exchange order id `"X"` returns
`None` as a normal value (`ok none`) and does not raise, contradicting the
claim that both lookup directions propagate an error. -/
theorem orderIdLookup_counterexample :
    OrderManager.empty.get_order_id_from_exchange_order_id "X" = Except.ok none
    ∧ OrderManager.empty.get_order_id_from_exchange_order_id "X" ≠ Except.error () :=
  ⟨rfl, by simp [OrderManager.get_order_id_from_exchange_order_id]⟩

/-- C9 amended: `get_exchange_order_id_from_order_id` with an unknown order
id raises (`KeyError`, modelled `error`), while
`get_order_id_from_exchange_order_id` with an unknown exchange order id
returns `None` as a normal value. -/
theorem orderIdLookup_unknown_spec (m : OrderManager) (e : String) (oid : ℤ)
    (he : m.exchange_order_ids e = none) (ho : m.orders oid = none) :
    m.get_order_id_from_exchange_order_id e = Except.ok none
    ∧ m.get_exchange_order_id_from_order_id oid = Except.error () := by
  constructor
  · simp [OrderManager.get_order_id_from_exchange_order_id, he]
  · simp [OrderManager.get_exchange_order_id_from_order_id, ho]

/-- Witness for C9's amended claim on the empty manager. -/
theorem orderIdLookup_unknown_spec_witness :
    (OrderManager.empty.exchange_order_ids "Y" = none
      ∧ OrderManager.empty.orders 5 = none)
    ∧ (OrderManager.empty.get_order_id_from_exchange_order_id "Y" = Except.ok none
      ∧ OrderManager.empty.get_exchange_order_id_from_order_id 5 = Except.error ()) :=
  ⟨⟨rfl, rfl⟩, orderIdLookup_unknown_spec OrderManager.empty "Y" 5 rfl rfl⟩

/-- Updating a different instrument's inner dict leaves an instrument's
buckets unchanged. -/
theorem lookupBuckets_updateInstr_ne (ps : List (String × List (ℚ × Position)))
    (iid iid' : String) (f : List (ℚ × Position) → List (ℚ × Position))
    (h : iid' ≠ iid) :
    lookupBuckets (updateInstr ps iid' f) iid = lookupBuckets ps iid := by
  induction ps with
  | nil => simp [updateInstr, lookupBuckets, h]
  | cons kv rest ih =>
    by_cases hk : kv.1 = iid'
    · simp only [updateInstr, if_pos hk, lookupBuckets, List.find?]
      have : ¬kv.1 = iid := hk ▸ h
      simp [this]
    · simp only [updateInstr, if_neg hk, lookupBuckets, List.find?]
      by_cases hi : kv.1 = iid
      · simp [hi]
      · simpa [hi, lookupBuckets] using ih

/-- C10: an instrument on which `add_position` was never called has total
volume and total nominal value 0 (its `defaultdict` query is a valid, empty
query; both getters are total functions of the state and raise nothing). -/
theorem positionManager_unknown_instrument_zero (calls : List (String × ℚ × ℚ))
    (iid : String) (h : ∀ c ∈ calls, c.1 ≠ iid) :
    (runPositionCalls calls).get_total_volume iid = 0
    ∧ (runPositionCalls calls).get_total_nominal_value iid = 0 := by
  have key : ∀ (m : PositionManager), lookupBuckets m.positions iid = [] →
      lookupBuckets (calls.foldl (fun m c => m.add_position c.1 c.2.1 c.2.2) m).positions iid
        = [] := by
    induction calls with
    | nil => intro m hm; simpa using hm
    | cons c rest ih =>
      intro m hm
      simp only [List.forall_mem_cons] at h
      simp only [List.foldl_cons]
      refine ih h.2 _ ?_
      rw [PositionManager.add_position, lookupBuckets_updateInstr_ne _ _ _ _ h.1]
      exact hm
  have hz : lookupBuckets (runPositionCalls calls).positions iid = [] := by
    have := key PositionManager.empty (by simp [PositionManager.empty, lookupBuckets])
    simpa [runPositionCalls] using this
  constructor
  · simp [PositionManager.get_total_volume, hz]
  · simp [PositionManager.get_total_nominal_value, hz]

/-- Witness for C10: after booking positions on `"A"` and `"B"`, instrument
`"C"` reports zero volume and zero nominal value. -/
theorem positionManager_unknown_instrument_zero_witness :
    (∀ c ∈ [("A", (10:ℚ), (1:ℚ)), ("B", (-3:ℚ), (2:ℚ))], c.1 ≠ "C")
    ∧ ((runPositionCalls [("A", (10:ℚ), (1:ℚ)), ("B", (-3:ℚ), (2:ℚ))]).get_total_volume "C" = 0
      ∧ (runPositionCalls [("A", (10:ℚ), (1:ℚ)), ("B", (-3:ℚ), (2:ℚ))]).get_total_nominal_value "C" = 0) :=
  ⟨by decide,
   positionManager_unknown_instrument_zero _ "C" (by decide)⟩

/-- C1 (spec-modelled): an admitted `try_reserve_capacity` followed by
`release_reserved_capacity` with identical arguments restores the entire
LimitStore state — in particular the reserved exposure tracked for the
instrument — exactly. -/
theorem reserve_release_roundtrip (s : LimitStoreState) (i : String) (sd : Side)
    (v p : ℚ) (h : (s.try_reserve_capacity i sd v p).1.allowed = true) :
    (s.try_reserve_capacity i sd v p).2.release_reserved_capacity i sd v p = s := by
  rcases hL : s.limits i with _ | lim
  · rw [LimitStoreState.try_reserve_capacity, hL] at h
    simp at h
  · rw [LimitStoreState.try_reserve_capacity, hL] at h ⊢
    dsimp only at h ⊢
    by_cases hc :
        (s.exposures i sd).reservedVolume + (s.exposures i sd).realizedVolume + v ≤
            lim.max_position_size ∧
          (s.exposures i sd).reservedNominal + (s.exposures i sd).realizedNominal + v * p ≤
            lim.max_nominal_position_size
    · simp only [if_pos hc]
      rw [LimitStoreState.release_reserved_capacity]
      rcases s with ⟨lims, exps⟩
      simp only
      congr 1
      funext i' sd'
      by_cases hish : i' = i ∧ sd' = sd
      · obtain ⟨h1, h2⟩ := hish
        subst h1; subst h2
        simp only [if_pos (And.intro rfl rfl)]
        have : exps i' sd' = { exps i' sd' with
            reservedVolume := exps i' sd' |>.reservedVolume
            reservedNominal := exps i' sd' |>.reservedNominal } := rfl
        cases hE : exps i' sd'
        simp [add_sub_cancel_right]
      · simp [if_neg hish]
    · rw [if_neg hc] at h
      simp at h

/-- Witness for C1: with a limit of 100/100 on `"A"`, reserving 10 units at
price 1 is admitted, and releasing the same arguments restores the store. -/
theorem reserve_release_roundtrip_witness :
    (sampleLimitStore.try_reserve_capacity "A" Side.BUY 10 1).1.allowed = true
    ∧ (sampleLimitStore.try_reserve_capacity "A" Side.BUY 10 1).2.release_reserved_capacity
        "A" Side.BUY 10 1 = sampleLimitStore :=
  ⟨by norm_num [sampleLimitStore, LimitStoreState.try_reserve_capacity,
      LimitStoreState.set_limit, LimitStoreState.init],
   reserve_release_roundtrip sampleLimitStore "A" Side.BUY 10 1
     (by norm_num [sampleLimitStore, LimitStoreState.try_reserve_capacity,
        LimitStoreState.set_limit, LimitStoreState.init])⟩

/-- C2 (spec-modelled): `apply_fill` with `fill_price ≠ reserved_price` and
`fill_volume = reserved_volume` adds `fill_price × fill_volume` to the
instrument's realized nominal exposure — recomputed from the actual fill —
and (whenever `fill_volume ≠ 0`) that differs from adding
`reserved_price × reserved_volume`. -/
theorem applyFill_recomputes_realized_nominal (s : LimitStoreState) (i : String)
    (sd : Side) (rp rv fp fv : ℚ) (h1 : fp ≠ rp) (h2 : fv = rv) :
    ((s.apply_fill i sd rp rv fp fv).exposures i sd).realizedNominal
      = (s.exposures i sd).realizedNominal + fp * fv
    ∧ (fv ≠ 0 →
        ((s.apply_fill i sd rp rv fp fv).exposures i sd).realizedNominal
          ≠ (s.exposures i sd).realizedNominal + rp * rv) := by
  have key : ((s.apply_fill i sd rp rv fp fv).exposures i sd).realizedNominal
      = (s.exposures i sd).realizedNominal + fv * fp := by
    simp [LimitStoreState.apply_fill]
  constructor
  · rw [key]; ring
  · intro hfv heq
    rw [key] at heq
    have hmul : fv * fp = rp * rv := by linarith
    subst h2
    have : fp = rp := by
      have := hmul.trans (mul_comm rp fv)
      exact mul_left_cancel₀ hfv this
    exact h1 this

/-- Witness for C2: a reservation of 10 units at price 1/2 filled as 10 units
at price 3/5. -/
theorem applyFill_recomputes_realized_nominal_witness :
    ((3:ℚ)/5 ≠ (1:ℚ)/2 ∧ (10:ℚ) = 10)
    ∧ (((LimitStoreState.init.apply_fill "A" Side.BUY (1/2) 10 (3/5) 10).exposures
          "A" Side.BUY).realizedNominal
        = ((LimitStoreState.init.exposures "A" Side.BUY).realizedNominal + (3/5) * 10)
      ∧ ((10:ℚ) ≠ 0 →
          ((LimitStoreState.init.apply_fill "A" Side.BUY (1/2) 10 (3/5) 10).exposures
            "A" Side.BUY).realizedNominal
          ≠ ((LimitStoreState.init.exposures "A" Side.BUY).realizedNominal + (1/2) * 10))) :=
  ⟨⟨by norm_num, rfl⟩,
   applyFill_recomputes_realized_nominal LimitStoreState.init "A" Side.BUY
     (1/2) 10 (3/5) 10 (by norm_num) rfl⟩

/-- C8: `add_fill_quantity` accumulates the fill into `filled_quantity` and
sets the status to FILLED exactly when the accumulated total equals the
originally requested quantity; otherwise (in particular one unit short) the
status is left unchanged, so a partial fill on an ACTIVE order stays
ACTIVE. -/
theorem addFill_filled_iff_exact_quantity (m : OrderManager) (oid : ℤ)
    (fq now : ℚ) (o : Order) (ho : m.orders oid = some o) :
    ∃ m', m.add_fill_quantity oid fq now = Except.ok m'
      ∧ m'.orders oid = some
          { o with
            filled_quantity := o.filled_quantity + fq
            updated_at := now
            status := if o.filled_quantity + fq = o.quantity then OrderStatus.FILLED
                      else o.status } := by
  rw [OrderManager.add_fill_quantity, ho]
  exact ⟨_, rfl, by simp⟩

/-- Witness for C8: filling the sample ACTIVE order (quantity 10, nothing
filled) by 9 keeps it ACTIVE; filling it by 10 makes it FILLED. The second
and third conjuncts evaluate both branches; the last applies the theorem. -/
theorem addFill_filled_iff_exact_quantity_witness :
    sampleManager.orders 1 = some sampleOrder
    ∧ (if (0:ℚ) + 9 = (10:ℚ) then OrderStatus.FILLED else OrderStatus.ACTIVE)
        = OrderStatus.ACTIVE
    ∧ (if (0:ℚ) + 10 = (10:ℚ) then OrderStatus.FILLED else OrderStatus.ACTIVE)
        = OrderStatus.FILLED
    ∧ (∃ m', sampleManager.add_fill_quantity 1 10 7 = Except.ok m'
        ∧ m'.orders 1 = some
            { sampleOrder with
              filled_quantity := sampleOrder.filled_quantity + 10
              updated_at := 7
              status := if sampleOrder.filled_quantity + 10 = sampleOrder.quantity then
                          OrderStatus.FILLED
                        else sampleOrder.status }) :=
  ⟨by simp [sampleManager],
   by norm_num,
   by norm_num,
   addFill_filled_iff_exact_quantity sampleManager 1 10 7 sampleOrder
     (by simp [sampleManager])⟩

/-- C5 counterexample: a Channel driven into ERROR (by calling `add_strategy`
after `run()`) leaves ERROR again as soon as `run()` is called — `run` sets
RUNNING unconditionally — so ERROR is not a terminal state. -/
theorem channel_error_exit_counterexample :
    (ChannelState.init.run.add_strategy ["A"]).1.status = ChannelStatus.ERROR
    ∧ (ChannelState.init.run.add_strategy ["A"]).1.run.status = ChannelStatus.RUNNING :=
  ⟨rfl, rfl⟩

/-- C5 amended: once the status is ERROR, `add_strategy` and the three event
handlers keep it ERROR; only `run()` and `stop()` leave the ERROR state,
because they overwrite the status unconditionally (to RUNNING resp.
STOPPED). -/
theorem channel_error_sticky_except_run_stop (c : ChannelState) (op : ChannelOp)
    (h : c.status = ChannelStatus.ERROR) (hop : op.overwritesStatus = false) :
    (applyChannelOp c op).status = ChannelStatus.ERROR
    ∧ (applyChannelOp c ChannelOp.run).status = ChannelStatus.RUNNING
    ∧ (applyChannelOp c ChannelOp.stop).status = ChannelStatus.STOPPED := by
  refine ⟨?_, rfl, rfl⟩
  cases op with
  | addStrategy strat =>
    simp [applyChannelOp, ChannelState.add_strategy, h]
  | run => simp [ChannelOp.overwritesStatus] at hop
  | stop => simp [ChannelOp.overwritesStatus] at hop
  | snapshot iid bids asks =>
    rw [applyChannelOp, ChannelState.on_order_book_snapshot_event]
    cases lookupBook c.books iid <;> simpa using h
  | update iid deltas =>
    rw [applyChannelOp, ChannelState.on_order_book_update_event]
    cases lookupBook c.books iid <;> simpa using h
  | trade iid =>
    rw [applyChannelOp, ChannelState.on_trade_event]
    cases lookupBook c.books iid <;> simpa using h

/-- Witness for C5's amended claim at the sample ERROR Channel and a trade
event. -/
theorem channel_error_sticky_except_run_stop_witness :
    (sampleErrorChannel.status = ChannelStatus.ERROR
      ∧ (ChannelOp.trade "A").overwritesStatus = false)
    ∧ ((applyChannelOp sampleErrorChannel (ChannelOp.trade "A")).status = ChannelStatus.ERROR
      ∧ (applyChannelOp sampleErrorChannel ChannelOp.run).status = ChannelStatus.RUNNING
      ∧ (applyChannelOp sampleErrorChannel ChannelOp.stop).status = ChannelStatus.STOPPED) :=
  ⟨⟨rfl, rfl⟩,
   channel_error_sticky_except_run_stop sampleErrorChannel (ChannelOp.trade "A") rfl rfl⟩

/-- No Channel operation brings a Channel whose status left INITIALIZED back
to INITIALIZED. -/
theorem channel_status_ne_init_step (c : ChannelState) (op : ChannelOp)
    (h : c.status ≠ ChannelStatus.INITIALIZED) :
    (applyChannelOp c op).status ≠ ChannelStatus.INITIALIZED := by
  cases op with
  | addStrategy strat =>
    simp [applyChannelOp, ChannelState.add_strategy, if_pos h]
  | run => simp [applyChannelOp, ChannelState.run]
  | stop => simp [applyChannelOp, ChannelState.stop]
  | snapshot iid bids asks =>
    rw [applyChannelOp, ChannelState.on_order_book_snapshot_event]
    cases lookupBook c.books iid <;> simpa using h
  | update iid deltas =>
    rw [applyChannelOp, ChannelState.on_order_book_update_event]
    cases lookupBook c.books iid <;> simpa using h
  | trade iid =>
    rw [applyChannelOp, ChannelState.on_trade_event]
    cases lookupBook c.books iid <;> simpa using h

/-- A status that left INITIALIZED never returns, along any operation
sequence. -/
theorem channel_status_ne_init_runOps (c : ChannelState) (ops : List ChannelOp)
    (h : c.status ≠ ChannelStatus.INITIALIZED) :
    (runChannelOps c ops).status ≠ ChannelStatus.INITIALIZED := by
  induction ops generalizing c with
  | nil => exact h
  | cons op rest ih =>
    rw [runChannelOps, List.foldl_cons]
    exact ih _ (channel_status_ne_init_step c op h)

/-- C6: on any Channel on which `run()` has been called — whatever operations
follow — a subsequent `add_strategy` raises a `ChannelStateError` and leaves
the status ERROR; and `add_strategy` returns without raising only from the
INITIALIZED state. -/
theorem addStrategy_after_run_raises (c : ChannelState) (ops : List ChannelOp)
    (strat strat' : List String) (d : ChannelState) :
    ((runChannelOps c.run ops).add_strategy strat).2 = true
    ∧ ((runChannelOps c.run ops).add_strategy strat).1.status = ChannelStatus.ERROR
    ∧ ((d.add_strategy strat').2 = false → d.status = ChannelStatus.INITIALIZED) := by
  have hne : (runChannelOps c.run ops).status ≠ ChannelStatus.INITIALIZED := by
    apply channel_status_ne_init_runOps
    simp [ChannelState.run]
  refine ⟨?_, ?_, ?_⟩
  · simp [ChannelState.add_strategy, if_pos hne]
  · simp [ChannelState.add_strategy, if_pos hne]
  · intro hfalse
    by_contra hd
    simp [ChannelState.add_strategy, if_pos hd] at hfalse

/-- Witness for C6: the fresh Channel, `run()`, no further operations, then
`add_strategy ["A"]`. -/
theorem addStrategy_after_run_raises_witness :
    ((runChannelOps ChannelState.init.run []).add_strategy ["A"]).2 = true
    ∧ ((runChannelOps ChannelState.init.run []).add_strategy ["A"]).1.status
        = ChannelStatus.ERROR
    ∧ ((ChannelState.init.add_strategy ["B"]).2 = false →
        ChannelState.init.status = ChannelStatus.INITIALIZED) :=
  addStrategy_after_run_raises ChannelState.init [] ["A"] ["B"] ChannelState.init

/-- The `impact_price` loop computes exactly the greedy consumed volume and
notional. -/
theorem impactLoop_consumed (ls : List Level) (r w : ℚ) :
    impactLoop ls r w = (r - consumedVolume r ls, w + consumedNotional r ls) := by
  induction ls generalizing r w with
  | nil => simp [impactLoop, consumedVolume, consumedNotional]
  | cons l ls ih =>
    rw [impactLoop, consumedVolume, consumedNotional]
    by_cases hr : r ≤ 0
    · rw [if_pos hr, if_pos hr, if_pos hr]; simp
    · rw [if_neg hr, if_neg hr, if_neg hr, ih]
      simp only [Prod.mk.injEq]
      constructor <;> ring

/-- Nothing is consumed once the remaining request is nonpositive. -/
theorem consumedVolume_nonpos (ls : List Level) (r : ℚ) (hr : r ≤ 0) :
    consumedVolume r ls = 0 := by
  cases ls <;> simp [consumedVolume, hr]

/-- Total side volume is nonnegative when every level's volume is. -/
theorem sideVolume_nonneg (ls : List Level) (h : ∀ l ∈ ls, 0 ≤ l.volume) :
    0 ≤ sideVolume ls := by
  apply List.sum_nonneg
  intro x hx
  simp only [List.mem_map] at hx
  obtain ⟨l, hl, rfl⟩ := hx
  exact h l hl

/-- With nonnegative level volumes, the greedy walk consumes
`min request (total side volume)`. -/
theorem consumedVolume_eq_min (ls : List Level) (r : ℚ) (hr : 0 ≤ r)
    (h : ∀ l ∈ ls, 0 ≤ l.volume) :
    consumedVolume r ls = min r (sideVolume ls) := by
  induction ls generalizing r with
  | nil => simp [consumedVolume, sideVolume, min_eq_right hr]
  | cons l ls ih =>
    have hl : 0 ≤ l.volume := h l (by simp)
    have hrest : ∀ x ∈ ls, 0 ≤ x.volume := fun x hx => h x (List.mem_cons_of_mem _ hx)
    have hT : 0 ≤ sideVolume ls := sideVolume_nonneg ls hrest
    have hSide : sideVolume (l :: ls) = l.volume + sideVolume ls := by
      simp [sideVolume]
    rw [consumedVolume]
    by_cases hr0 : r ≤ 0
    · have hr00 : r = 0 := le_antisymm hr0 hr
      subst hr00
      rw [if_pos hr0, hSide, min_eq_left (by linarith)]
    · push_neg at hr0
      rw [if_neg (not_le.mpr hr0)]
      by_cases hvr : l.volume ≤ r
      · rw [min_eq_right hvr, ih (r - l.volume) (by linarith) hrest, hSide]
        have hmin : min r (l.volume + sideVolume ls)
            = l.volume + min (r - l.volume) (sideVolume ls) := by
          rw [← min_add_add_left]
          congr 1
          ring
        rw [hmin]
      · push_neg at hvr
        rw [min_eq_left hvr.le, sub_self, consumedVolume_nonpos ls 0 le_rfl, hSide,
          min_eq_left (by linarith)]
        ring

/-- C4 counterexample: for requested volume 0 on a book with ask liquidity 5,
the available volume is not `< 0`, so the claim demands the walked
volume-weighted price; the code instead raises `ZeroDivisionError` at
`weighted_sum / volume`. -/
theorem impact_price_counterexample :
    (OrderBook.mk [] [Level.mk 1 5]).impact_price 0 Side.BUY = Except.error ()
    ∧ ¬sideVolume ((OrderBook.mk [] [Level.mk 1 5]).sideLevels Side.BUY) < 0 := by
  constructor
  · norm_num [OrderBook.impact_price, OrderBook.sideLevels, impactLoop]
  · norm_num [sideVolume, OrderBook.sideLevels]

/-- C4 amended: for every book whose relevant side has nonnegative level
volumes and every requested volume `v > 0`, `impact_price` returns no-result
iff the available volume on that side is less than `v`, and otherwise returns
the volume-weighted average price of the greedy walk from the best level
inward (`consumedNotional v levels / v`). (For `v = 0` the code raises
`ZeroDivisionError` instead — see the counterexample.) -/
theorem impact_price_spec (b : OrderBook) (v : ℚ) (sd : Side)
    (hb : ∀ l ∈ b.sideLevels sd, 0 ≤ l.volume) (hv : 0 < v) :
    (b.impact_price v sd = Except.ok none ↔ sideVolume (b.sideLevels sd) < v)
    ∧ (v ≤ sideVolume (b.sideLevels sd) →
        b.impact_price v sd
          = Except.ok (some (consumedNotional v (b.sideLevels sd) / v))) := by
  have h0 : (0:ℚ) ≤ v := hv.le
  have hloop := impactLoop_consumed (b.sideLevels sd) v 0
  have hcv := consumedVolume_eq_min (b.sideLevels sd) v h0 hb
  by_cases hTv : sideVolume (b.sideLevels sd) < v
  · have hpos : (impactLoop (b.sideLevels sd) v 0).1 > 0 := by
      rw [hloop]
      dsimp only
      rw [hcv, min_eq_right hTv.le]
      linarith
    have heval : b.impact_price v sd = Except.ok none := by
      rw [OrderBook.impact_price]
      simp only [if_pos hpos]
    refine ⟨⟨fun _ => hTv, fun _ => heval⟩, fun hge => absurd hTv (not_lt.mpr hge)⟩
  · push_neg at hTv
    have hz : (impactLoop (b.sideLevels sd) v 0).1 = 0 := by
      rw [hloop]
      dsimp only
      rw [hcv, min_eq_left hTv]
      ring
    have hnpos : ¬(impactLoop (b.sideLevels sd) v 0).1 > 0 := by
      rw [hz]
      exact lt_irrefl 0
    have hw : (impactLoop (b.sideLevels sd) v 0).2 = consumedNotional v (b.sideLevels sd) := by
      rw [hloop]
      dsimp only
      ring
    have heval : b.impact_price v sd
        = Except.ok (some (consumedNotional v (b.sideLevels sd) / v)) := by
      rw [OrderBook.impact_price]
      simp only [if_neg hnpos, if_neg hv.ne', hw]
    constructor
    · rw [heval]
      constructor
      · intro hcontra
        simp at hcontra
      · intro hlt
        exact absurd hlt (not_lt.mpr hTv)
    · intro _
      exact heval

/-- Witness for C4's amended claim: asks `[(1/2, 5), (3/5, 10)]`, requested
volume 8 — within the available 15, so the impact price is
`(5·(1/2) + 3·(3/5)) / 8 = 43/80`. -/
theorem impact_price_spec_witness :
    ((∀ l ∈ (OrderBook.mk [] [Level.mk (1/2) 5, Level.mk (3/5) 10]).sideLevels Side.BUY,
        0 ≤ l.volume) ∧ (0:ℚ) < 8)
    ∧ (((OrderBook.mk [] [Level.mk (1/2) 5, Level.mk (3/5) 10]).impact_price 8 Side.BUY
          = Except.ok none
        ↔ sideVolume ((OrderBook.mk [] [Level.mk (1/2) 5, Level.mk (3/5) 10]).sideLevels
            Side.BUY) < 8)
      ∧ (8 ≤ sideVolume ((OrderBook.mk [] [Level.mk (1/2) 5, Level.mk (3/5) 10]).sideLevels
            Side.BUY) →
          (OrderBook.mk [] [Level.mk (1/2) 5, Level.mk (3/5) 10]).impact_price 8 Side.BUY
            = Except.ok (some (consumedNotional 8
                ((OrderBook.mk [] [Level.mk (1/2) 5, Level.mk (3/5) 10]).sideLevels Side.BUY)
                / 8)))) :=
  ⟨⟨by
      intro l hl
      simp only [OrderBook.sideLevels, List.mem_cons, List.not_mem_nil, or_false] at hl
      rcases hl with h | h <;> rw [h] <;> norm_num,
    by norm_num⟩,
   impact_price_spec (OrderBook.mk [] [Level.mk (1/2) 5, Level.mk (3/5) 10]) 8 Side.BUY
     (by
       intro l hl
       simp only [OrderBook.sideLevels, List.mem_cons, List.not_mem_nil, or_false] at hl
       rcases hl with h | h <;> rw [h] <;> norm_num)
     (by norm_num)⟩

/-- When the search loop of `update_level` falls through, no level carries
the price. -/
theorem updateExisting_none (p v : ℚ) (ls : List Level)
    (h : updateExisting p v ls = none) : ∀ l ∈ ls, l.price ≠ p := by
  induction ls with
  | nil => simp
  | cons l ls ih =>
    rw [updateExisting] at h
    by_cases hl : l.price = p
    · rw [if_pos hl] at h
      exact absurd h (by simp)
    · rw [if_neg hl] at h
      rw [Option.map_eq_none'] at h
      intro x hx
      rcases List.mem_cons.mp hx with rfl | hx
      · exact hl
      · exact ih h x hx

/-- Every price in the updated list already occurred in the original list. -/
theorem updateExisting_mem_price (p v : ℚ) (ls ls' : List Level) (x : Level)
    (h : updateExisting p v ls = some ls') (hx : x ∈ ls') :
    x.price ∈ ls.map Level.price := by
  induction ls generalizing ls' with
  | nil => simp [updateExisting] at h
  | cons l ls ih =>
    rw [updateExisting] at h
    by_cases hl : l.price = p
    · rw [if_pos hl, Option.some.injEq] at h
      subst h
      by_cases hv : v = 0
      · rw [if_pos hv] at hx
        exact List.mem_map.mpr ⟨x, List.mem_cons_of_mem _ hx, rfl⟩
      · rw [if_neg hv] at hx
        rcases List.mem_cons.mp hx with rfl | hx
        · simp
        · exact List.mem_map.mpr ⟨x, List.mem_cons_of_mem _ hx, rfl⟩
    · rw [if_neg hl, Option.map_eq_some'] at h
      obtain ⟨ls'', h'', rfl⟩ := h
      rcases List.mem_cons.mp hx with rfl | hx
      · simp
      · simp only [List.map_cons, List.mem_cons]
        exact Or.inr (ih ls'' h'' hx)

/-- The search loop of `update_level` preserves every pairwise relation that
depends only on prices (replacement keeps the price, removal is a
sublist). -/
theorem updateExisting_pairwise (R : ℚ → ℚ → Prop) (p v : ℚ) (ls ls' : List Level)
    (h : updateExisting p v ls = some ls')
    (hp : ls.Pairwise fun a b => R a.price b.price) :
    ls'.Pairwise fun a b => R a.price b.price := by
  induction ls generalizing ls' with
  | nil => simp [updateExisting] at h
  | cons l ls ih =>
    rw [updateExisting] at h
    rw [List.pairwise_cons] at hp
    by_cases hl : l.price = p
    · rw [if_pos hl, Option.some.injEq] at h
      subst h
      by_cases hv : v = 0
      · rw [if_pos hv]
        exact hp.2
      · rw [if_neg hv]
        exact List.pairwise_cons.mpr ⟨fun x hx => hp.1 x hx, hp.2⟩
    · rw [if_neg hl, Option.map_eq_some'] at h
      obtain ⟨ls'', h'', rfl⟩ := h
      refine List.pairwise_cons.mpr ⟨fun x hx => ?_, ih ls'' h'' hp.2⟩
      obtain ⟨y, hy, hxy⟩ := List.mem_map.mp (updateExisting_mem_price p v ls ls'' x h'' hx)
      rw [← hxy]
      exact hp.1 y hy

/-- The search loop of `update_level` keeps volumes positive when called with
a non-negative volume. -/
theorem updateExisting_posVolumes (p v : ℚ) (ls ls' : List Level)
    (h : updateExisting p v ls = some ls') (hv : 0 ≤ v) (hpos : posVolumes ls) :
    posVolumes ls' := by
  induction ls generalizing ls' with
  | nil => simp [updateExisting] at h
  | cons l ls ih =>
    rw [updateExisting] at h
    have hl' : 0 < l.volume := hpos l (by simp)
    have htail : posVolumes ls := fun x hx => hpos x (List.mem_cons_of_mem _ hx)
    by_cases hl : l.price = p
    · rw [if_pos hl, Option.some.injEq] at h
      subst h
      by_cases hv0 : v = 0
      · rw [if_pos hv0]
        exact htail
      · rw [if_neg hv0]
        intro x hx
        rcases List.mem_cons.mp hx with rfl | hx
        · exact lt_of_le_of_ne hv (Ne.symm hv0)
        · exact htail x hx
    · rw [if_neg hl, Option.map_eq_some'] at h
      obtain ⟨ls'', h'', rfl⟩ := h
      intro x hx
      rcases List.mem_cons.mp hx with rfl | hx
      · exact hl'
      · exact ih ls'' h'' htail x hx

/-- Membership after the bid-side ordered insert. -/
theorem insertBid_mem (nl x : Level) (ls : List Level) (hx : x ∈ insertBid nl ls) :
    x = nl ∨ x ∈ ls := by
  induction ls with
  | nil => simpa [insertBid] using hx
  | cons l ls ih =>
    rw [insertBid] at hx
    by_cases hc : nl.price > l.price
    · rw [if_pos hc] at hx
      rcases List.mem_cons.mp hx with rfl | hx
      · exact Or.inl rfl
      · exact Or.inr hx
    · rw [if_neg hc] at hx
      rcases List.mem_cons.mp hx with rfl | hx
      · exact Or.inr (by simp)
      · rcases ih hx with h | h
        · exact Or.inl h
        · exact Or.inr (List.mem_cons_of_mem _ h)

/-- The bid-side insert keeps the list strictly descending when the inserted
price is new. -/
theorem insertBid_strictDesc (nl : Level) (ls : List Level) (hs : strictDesc ls)
    (hne : ∀ l ∈ ls, l.price ≠ nl.price) : strictDesc (insertBid nl ls) := by
  induction ls with
  | nil => simp [insertBid, strictDesc]
  | cons l ls ih =>
    rw [strictDesc, List.pairwise_cons] at hs
    rw [insertBid]
    by_cases hc : nl.price > l.price
    · rw [if_pos hc]
      refine List.pairwise_cons.mpr ⟨?_, List.pairwise_cons.mpr ⟨hs.1, hs.2⟩⟩
      intro x hx
      rcases List.mem_cons.mp hx with rfl | hx
      · exact hc
      · exact lt_trans (hs.1 x hx) hc
    · rw [if_neg hc]
      have hlt : nl.price < l.price :=
        lt_of_le_of_ne (not_lt.mp hc) (Ne.symm (hne l (by simp)))
      refine List.pairwise_cons.mpr ⟨?_, ih hs.2 fun x hx => hne x (List.mem_cons_of_mem _ hx)⟩
      intro x hx
      rcases insertBid_mem nl x ls hx with rfl | hx
      · exact hlt
      · exact hs.1 x hx

/-- Membership after the ask-side ordered insert. -/
theorem insertAsk_mem (nl x : Level) (ls : List Level) (hx : x ∈ insertAsk nl ls) :
    x = nl ∨ x ∈ ls := by
  induction ls with
  | nil => simpa [insertAsk] using hx
  | cons l ls ih =>
    rw [insertAsk] at hx
    by_cases hc : nl.price < l.price
    · rw [if_pos hc] at hx
      rcases List.mem_cons.mp hx with rfl | hx
      · exact Or.inl rfl
      · exact Or.inr hx
    · rw [if_neg hc] at hx
      rcases List.mem_cons.mp hx with rfl | hx
      · exact Or.inr (by simp)
      · rcases ih hx with h | h
        · exact Or.inl h
        · exact Or.inr (List.mem_cons_of_mem _ h)

/-- The ask-side insert keeps the list strictly ascending when the inserted
price is new. -/
theorem insertAsk_strictAsc (nl : Level) (ls : List Level) (hs : strictAsc ls)
    (hne : ∀ l ∈ ls, l.price ≠ nl.price) : strictAsc (insertAsk nl ls) := by
  induction ls with
  | nil => simp [insertAsk, strictAsc]
  | cons l ls ih =>
    rw [strictAsc, List.pairwise_cons] at hs
    rw [insertAsk]
    by_cases hc : nl.price < l.price
    · rw [if_pos hc]
      refine List.pairwise_cons.mpr ⟨?_, List.pairwise_cons.mpr ⟨hs.1, hs.2⟩⟩
      intro x hx
      rcases List.mem_cons.mp hx with rfl | hx
      · exact hc
      · exact lt_trans hc (hs.1 x hx)
    · rw [if_neg hc]
      have hlt : l.price < nl.price :=
        lt_of_le_of_ne (not_lt.mp hc) (hne l (by simp))
      refine List.pairwise_cons.mpr ⟨?_, ih hs.2 fun x hx => hne x (List.mem_cons_of_mem _ hx)⟩
      intro x hx
      rcases insertAsk_mem nl x ls hx with rfl | hx
      · exact hlt
      · exact hs.1 x hx

/-- When the loop of `adjust_volume` falls through, no level carries the
price. (Unused by the invariant but characterises the `found = false`
no-op.) -/
theorem adjustExisting_none (p d : ℚ) (ls : List Level)
    (h : adjustExisting p d ls = none) : ∀ l ∈ ls, l.price ≠ p := by
  induction ls with
  | nil => simp
  | cons l ls ih =>
    rw [adjustExisting] at h
    by_cases hl : l.price = p
    · rw [if_pos hl] at h
      exact absurd h (by simp)
    · rw [if_neg hl] at h
      rw [Option.map_eq_none'] at h
      intro x hx
      rcases List.mem_cons.mp hx with rfl | hx
      · exact hl
      · exact ih h x hx

/-- Every price after `adjust_volume`'s loop already occurred before. -/
theorem adjustExisting_mem_price (p d : ℚ) (ls ls' : List Level) (x : Level)
    (h : adjustExisting p d ls = some ls') (hx : x ∈ ls') :
    x.price ∈ ls.map Level.price := by
  induction ls generalizing ls' with
  | nil => simp [adjustExisting] at h
  | cons l ls ih =>
    rw [adjustExisting] at h
    by_cases hl : l.price = p
    · rw [if_pos hl, Option.some.injEq] at h
      subst h
      by_cases hv : l.volume + d ≤ 0
      · rw [if_pos hv] at hx
        exact List.mem_map.mpr ⟨x, List.mem_cons_of_mem _ hx, rfl⟩
      · rw [if_neg hv] at hx
        rcases List.mem_cons.mp hx with rfl | hx
        · simp
        · exact List.mem_map.mpr ⟨x, List.mem_cons_of_mem _ hx, rfl⟩
    · rw [if_neg hl, Option.map_eq_some'] at h
      obtain ⟨ls'', h'', rfl⟩ := h
      rcases List.mem_cons.mp hx with rfl | hx
      · simp
      · simp only [List.map_cons, List.mem_cons]
        exact Or.inr (ih ls'' h'' hx)

/-- `adjust_volume`'s loop preserves every pairwise relation on prices. -/
theorem adjustExisting_pairwise (R : ℚ → ℚ → Prop) (p d : ℚ) (ls ls' : List Level)
    (h : adjustExisting p d ls = some ls')
    (hp : ls.Pairwise fun a b => R a.price b.price) :
    ls'.Pairwise fun a b => R a.price b.price := by
  induction ls generalizing ls' with
  | nil => simp [adjustExisting] at h
  | cons l ls ih =>
    rw [adjustExisting] at h
    rw [List.pairwise_cons] at hp
    by_cases hl : l.price = p
    · rw [if_pos hl, Option.some.injEq] at h
      subst h
      by_cases hv : l.volume + d ≤ 0
      · rw [if_pos hv]
        exact hp.2
      · rw [if_neg hv]
        exact List.pairwise_cons.mpr ⟨fun x hx => hp.1 x hx, hp.2⟩
    · rw [if_neg hl, Option.map_eq_some'] at h
      obtain ⟨ls'', h'', rfl⟩ := h
      refine List.pairwise_cons.mpr ⟨fun x hx => ?_, ih ls'' h'' hp.2⟩
      obtain ⟨y, hy, hxy⟩ := List.mem_map.mp (adjustExisting_mem_price p d ls ls'' x h'' hx)
      rw [← hxy]
      exact hp.1 y hy

/-- `adjust_volume`'s loop keeps volumes positive: the adjusted level is
removed unless its new volume is strictly positive. -/
theorem adjustExisting_posVolumes (p d : ℚ) (ls ls' : List Level)
    (h : adjustExisting p d ls = some ls') (hpos : posVolumes ls) :
    posVolumes ls' := by
  induction ls generalizing ls' with
  | nil => simp [adjustExisting] at h
  | cons l ls ih =>
    rw [adjustExisting] at h
    have hl' : 0 < l.volume := hpos l (by simp)
    have htail : posVolumes ls := fun x hx => hpos x (List.mem_cons_of_mem _ hx)
    by_cases hl : l.price = p
    · rw [if_pos hl, Option.some.injEq] at h
      subst h
      by_cases hv : l.volume + d ≤ 0
      · rw [if_pos hv]
        exact htail
      · rw [if_neg hv]
        intro x hx
        rcases List.mem_cons.mp hx with rfl | hx
        · exact not_le.mp hv
        · exact htail x hx
    · rw [if_neg hl, Option.map_eq_some'] at h
      obtain ⟨ls'', h'', rfl⟩ := h
      intro x hx
      rcases List.mem_cons.mp hx with rfl | hx
      · exact hl'
      · exact ih ls'' h'' htail x hx

/-- Positivity of inserted-list volumes. -/
theorem insertBid_posVolumes (nl : Level) (ls : List Level) (hn : 0 < nl.volume)
    (hpos : posVolumes ls) : posVolumes (insertBid nl ls) := by
  intro x hx
  rcases insertBid_mem nl x ls hx with rfl | hx
  · exact hn
  · exact hpos x hx

/-- Positivity of inserted-list volumes (ask side). -/
theorem insertAsk_posVolumes (nl : Level) (ls : List Level) (hn : 0 < nl.volume)
    (hpos : posVolumes ls) : posVolumes (insertAsk nl ls) := by
  intro x hx
  rcases insertAsk_mem nl x ls hx with rfl | hx
  · exact hn
  · exact hpos x hx

/-- Strictly descending prices are pairwise distinct. -/
theorem strictDesc_uniquePrices (ls : List Level) (h : strictDesc ls) :
    uniquePrices ls :=
  h.imp fun hab => (ne_of_lt hab).symm

/-- Strictly ascending prices are pairwise distinct. -/
theorem strictAsc_uniquePrices (ls : List Level) (h : strictAsc ls) :
    uniquePrices ls :=
  h.imp fun hab => ne_of_lt hab

/-- `update_level` with non-negative volume preserves the book invariant. -/
theorem bookInvariant_update_level (b : OrderBook) (p v : ℚ) (s : Side)
    (hv : 0 ≤ v) (hb : bookInvariant b) : bookInvariant (b.update_level p v s) := by
  obtain ⟨hd, ha, _, _, hpb, hpa⟩ := hb
  cases s with
  | BUY =>
    simp only [OrderBook.update_level]
    cases hU : updateExisting p v b.bids with
    | some bs =>
      have hd' : strictDesc bs := updateExisting_pairwise (fun x y => y < x) p v _ _ hU hd
      have hp' : posVolumes bs := updateExisting_posVolumes p v _ _ hU hv hpb
      exact ⟨hd', ha, strictDesc_uniquePrices _ hd', strictAsc_uniquePrices _ ha, hp', hpa⟩
    | none =>
      by_cases hv0 : v > 0
      · rw [if_pos hv0]
        have hne : ∀ l ∈ b.bids, l.price ≠ (Level.mk p v).price :=
          updateExisting_none p v _ hU
        have hd' := insertBid_strictDesc ⟨p, v⟩ b.bids hd hne
        have hp' := insertBid_posVolumes ⟨p, v⟩ b.bids hv0 hpb
        exact ⟨hd', ha, strictDesc_uniquePrices _ hd', strictAsc_uniquePrices _ ha, hp', hpa⟩
      · rw [if_neg hv0]
        exact ⟨hd, ha, strictDesc_uniquePrices _ hd, strictAsc_uniquePrices _ ha, hpb, hpa⟩
  | SELL =>
    simp only [OrderBook.update_level]
    cases hU : updateExisting p v b.asks with
    | some ks =>
      have ha' : strictAsc ks := updateExisting_pairwise (fun x y => x < y) p v _ _ hU ha
      have hp' : posVolumes ks := updateExisting_posVolumes p v _ _ hU hv hpa
      exact ⟨hd, ha', strictDesc_uniquePrices _ hd, strictAsc_uniquePrices _ ha', hpb, hp'⟩
    | none =>
      by_cases hv0 : v > 0
      · rw [if_pos hv0]
        have hne : ∀ l ∈ b.asks, l.price ≠ (Level.mk p v).price :=
          updateExisting_none p v _ hU
        have ha' := insertAsk_strictAsc ⟨p, v⟩ b.asks ha hne
        have hp' := insertAsk_posVolumes ⟨p, v⟩ b.asks hv0 hpa
        exact ⟨hd, ha', strictDesc_uniquePrices _ hd, strictAsc_uniquePrices _ ha', hpb, hp'⟩
      · rw [if_neg hv0]
        exact ⟨hd, ha, strictDesc_uniquePrices _ hd, strictAsc_uniquePrices _ ha, hpb, hpa⟩

/-- `adjust_volume` preserves the book invariant unconditionally. -/
theorem bookInvariant_adjust_volume (b : OrderBook) (p d : ℚ) (s : Side)
    (hb : bookInvariant b) : bookInvariant (b.adjust_volume p d s).1 := by
  obtain ⟨hd, ha, hu1, hu2, hpb, hpa⟩ := hb
  cases s with
  | BUY =>
    simp only [OrderBook.adjust_volume]
    cases hU : adjustExisting p d b.bids with
    | some bs =>
      have hd' : strictDesc bs := adjustExisting_pairwise (fun x y => y < x) p d _ _ hU hd
      have hp' : posVolumes bs := adjustExisting_posVolumes p d _ _ hU hpb
      exact ⟨hd', ha, strictDesc_uniquePrices _ hd', strictAsc_uniquePrices _ ha, hp', hpa⟩
    | none => exact ⟨hd, ha, hu1, hu2, hpb, hpa⟩
  | SELL =>
    simp only [OrderBook.adjust_volume]
    cases hU : adjustExisting p d b.asks with
    | some ks =>
      have ha' : strictAsc ks := adjustExisting_pairwise (fun x y => x < y) p d _ _ hU ha
      have hp' : posVolumes ks := adjustExisting_posVolumes p d _ _ hU hpa
      exact ⟨hd, ha', strictDesc_uniquePrices _ hd, strictAsc_uniquePrices _ ha', hpb, hp'⟩
    | none => exact ⟨hd, ha, hu1, hu2, hpb, hpa⟩

/-- Sorting the bid input of `populate` yields a strictly descending list
when the input prices are pairwise distinct. -/
theorem populateBids_strictDesc (bids : List (ℚ × ℚ))
    (h : bids.Pairwise fun x y => x.1 ≠ y.1) :
    strictDesc ((bids.map fun pv => Level.mk pv.1 pv.2).mergeSort
      fun x y => y.price ≤ x.price) := by
  have hle : ((bids.map fun pv => Level.mk pv.1 pv.2).mergeSort
      (fun x y => y.price ≤ x.price)).Pairwise fun a b => b.price ≤ a.price := by
    have := @List.sorted_mergeSort Level (fun x y : Level => decide (y.price ≤ x.price))
      (fun a b c hab hbc => by
        simp only [decide_eq_true_eq] at *
        exact le_trans hbc hab)
      (fun a b => by
        simp only [Bool.or_eq_true, decide_eq_true_eq]
        exact le_total b.price a.price)
      (bids.map fun pv => Level.mk pv.1 pv.2)
    exact this.imp fun hab => of_decide_eq_true hab
  have hperm := List.mergeSort_perm (bids.map fun pv => Level.mk pv.1 pv.2)
    fun x y => y.price ≤ x.price
  have hne : ((bids.map fun pv => Level.mk pv.1 pv.2).mergeSort
      (fun x y => y.price ≤ x.price)).Pairwise fun a b => a.price ≠ b.price := by
    refine (List.Perm.pairwise_iff (fun hab => hab.symm) hperm).mpr ?_
    rw [List.pairwise_map]
    exact h
  exact (hle.and hne).imp fun hab => lt_of_le_of_ne hab.1 (Ne.symm hab.2)

/-- Sorting the ask input of `populate` yields a strictly ascending list when
the input prices are pairwise distinct. -/
theorem populateAsks_strictAsc (asks : List (ℚ × ℚ))
    (h : asks.Pairwise fun x y => x.1 ≠ y.1) :
    strictAsc ((asks.map fun pv => Level.mk pv.1 pv.2).mergeSort
      fun x y => x.price ≤ y.price) := by
  have hle : ((asks.map fun pv => Level.mk pv.1 pv.2).mergeSort
      (fun x y => x.price ≤ y.price)).Pairwise fun a b => a.price ≤ b.price := by
    have := @List.sorted_mergeSort Level (fun x y : Level => decide (x.price ≤ y.price))
      (fun a b c hab hbc => by
        simp only [decide_eq_true_eq] at *
        exact le_trans hab hbc)
      (fun a b => by
        simp only [Bool.or_eq_true, decide_eq_true_eq]
        exact le_total a.price b.price)
      (asks.map fun pv => Level.mk pv.1 pv.2)
    exact this.imp fun hab => of_decide_eq_true hab
  have hperm := List.mergeSort_perm (asks.map fun pv => Level.mk pv.1 pv.2)
    fun x y => x.price ≤ y.price
  have hne : ((asks.map fun pv => Level.mk pv.1 pv.2).mergeSort
      (fun x y => x.price ≤ y.price)).Pairwise fun a b => a.price ≠ b.price := by
    refine (List.Perm.pairwise_iff (fun hab => hab.symm) hperm).mpr ?_
    rw [List.pairwise_map]
    exact h
  exact (hle.and hne).imp fun hab => lt_of_le_of_ne hab.1 hab.2

/-- The sorted output of `populate` keeps its input's positive volumes. -/
theorem populate_posVolumes (pvs : List (ℚ × ℚ)) (le : Level → Level → Bool)
    (h : ∀ x ∈ pvs, 0 < x.2) :
    posVolumes ((pvs.map fun pv => Level.mk pv.1 pv.2).mergeSort le) := by
  intro x hx
  have hmem : x ∈ pvs.map fun pv => Level.mk pv.1 pv.2 :=
    (List.mergeSort_perm (pvs.map fun pv => Level.mk pv.1 pv.2) le).mem_iff.mp hx
  obtain ⟨pv, hpv, rfl⟩ := List.mem_map.mp hmem
  exact h pv hpv

/-- `populate` establishes the book invariant from distinct-price,
positive-volume raw inputs. -/
theorem bookInvariant_populate (b : OrderBook) (bids asks : List (ℚ × ℚ))
    (hb1 : bids.Pairwise fun x y => x.1 ≠ y.1) (hb2 : ∀ x ∈ bids, 0 < x.2)
    (ha1 : asks.Pairwise fun x y => x.1 ≠ y.1) (ha2 : ∀ x ∈ asks, 0 < x.2) :
    bookInvariant (b.populate bids asks) := by
  have hd := populateBids_strictDesc bids hb1
  have ha := populateAsks_strictAsc asks ha1
  exact ⟨hd, ha, strictDesc_uniquePrices _ hd, strictAsc_uniquePrices _ ha,
    populate_posVolumes bids _ hb2, populate_posVolumes asks _ ha2⟩

/-- Replaying well-formed mutations preserves the book invariant. -/
theorem bookInvariant_runBookOps (b : OrderBook) (ops : List BookOp)
    (hb : bookInvariant b) (hops : ∀ op ∈ ops, goodBookOp op) :
    bookInvariant (runBookOps b ops) := by
  induction ops generalizing b with
  | nil => exact hb
  | cons op rest ih =>
    rw [runBookOps, List.foldl_cons]
    simp only [List.forall_mem_cons] at hops
    refine ih _ ?_ hops.2
    cases op with
    | update p v s => exact bookInvariant_update_level b p v s hops.1 hb
    | adjust p d s => exact bookInvariant_adjust_volume b p d s hb

/-- C3 counterexample: `populate` persists its raw input volumes unchecked —
a bid entry `(1, 0)` yields a stored level with volume 0, violating the
claimed invariant for a book freshly produced by `populate` (before any
`update_level`/`adjust_volume` call). -/
theorem book_invariant_counterexample :
    ¬bookInvariant ((OrderBook.mk [] []).populate [((1:ℚ), (0:ℚ))] []) := by
  intro h
  have h5 := h.2.2.2.2.1
  have hmem : Level.mk (1:ℚ) 0 ∈ ((OrderBook.mk [] []).populate [((1:ℚ), (0:ℚ))] []).bids := by
    simp [OrderBook.populate, List.mergeSort_singleton]
  have := h5 _ hmem
  exact absurd this (by norm_num)

/-- C3 amended: provided `populate` receives per-side lists with pairwise
distinct prices and strictly positive volumes, and every subsequent
`update_level` call has non-negative volume, then after any sequence of
`update_level`/`adjust_volume` calls the bids stay strictly descending, the
asks strictly ascending, each price occurs at most once per side, and no
persisted level has volume ≤ 0. (Without those provisos the invariant fails:
`populate` stores volume-0 or duplicate-price input levels verbatim, and
`update_level` writes a negative volume into an existing level since only
`volume == 0` deletes.) -/
theorem book_invariant_after_populate_and_ops (bids asks : List (ℚ × ℚ))
    (ops : List BookOp)
    (hb1 : bids.Pairwise fun x y => x.1 ≠ y.1) (hb2 : ∀ x ∈ bids, 0 < x.2)
    (ha1 : asks.Pairwise fun x y => x.1 ≠ y.1) (ha2 : ∀ x ∈ asks, 0 < x.2)
    (hops : ∀ op ∈ ops, goodBookOp op) :
    bookInvariant (runBookOps ((OrderBook.mk [] []).populate bids asks) ops) :=
  bookInvariant_runBookOps _ ops
    (bookInvariant_populate _ bids asks hb1 hb2 ha1 ha2) hops

/-- Witness for C3's amended claim: a two-level bid book and one ask,
followed by an upsert, a level removal and a negative adjustment. -/
theorem book_invariant_after_populate_and_ops_witness :
    (([((2:ℚ), (5:ℚ)), (1, 3)].Pairwise fun x y => x.1 ≠ y.1)
      ∧ (∀ x ∈ [((2:ℚ), (5:ℚ)), (1, 3)], 0 < x.2)
      ∧ (([((3:ℚ), (4:ℚ))].Pairwise fun x y => x.1 ≠ y.1)
      ∧ (∀ x ∈ [((3:ℚ), (4:ℚ))], 0 < x.2))
      ∧ (∀ op ∈ [BookOp.update 1 0 Side.BUY, BookOp.adjust 3 (-1) Side.SELL],
          goodBookOp op))
    ∧ bookInvariant (runBookOps ((OrderBook.mk [] []).populate
        [((2:ℚ), (5:ℚ)), (1, 3)] [((3:ℚ), (4:ℚ))])
        [BookOp.update 1 0 Side.BUY, BookOp.adjust 3 (-1) Side.SELL]) :=
  ⟨⟨by norm_num,
    by norm_num,
    ⟨by norm_num, by norm_num⟩,
    by simp [goodBookOp]⟩,
   book_invariant_after_populate_and_ops [((2:ℚ), (5:ℚ)), (1, 3)] [((3:ℚ), (4:ℚ))]
     [BookOp.update 1 0 Side.BUY, BookOp.adjust 3 (-1) Side.SELL]
     (by norm_num) (by norm_num) (by norm_num) (by norm_num)
     (by simp [goodBookOp])⟩

end Polybot
